import Mathlib

/-!
Verification of the Smart-scheduling job-shop scheduler
(`src/scheduler/scheduler.py`, class `JobShopScheduler`).

The scheduler loads rows (JobID, TaskID, MachineID, Duration, optional
Deadline) from a CSV, builds a CP-SAT model with interval variables, a
no-overlap constraint per machine, precedence constraints inside each job,
a makespan variable and per-job tardiness variables, minimizes
makespan + sum of tardiness, and extracts a schedule from the solver.

The embedding below models:
  * rows and the loaded instance (`load_data`),
  * the constraint model as a satisfaction predicate over variable
    assignments (`Satisfies` \x7e the constraints posted by `create_model`),
  * solution extraction (`solve` / `extract_solution`),
  * `get_makespan` (which returns the solver's objective value),
  * the two machine-utilization functions (rationals stand in for the
    Python floats; the ratios involved are exact).
-/

namespace SmartScheduling

/-- One input record (one CSV row): JobID, TaskID, MachineID, Duration,
and the optional Deadline column (`none` models a missing/NaN cell). -/
structure Row where
  jobId : Nat
  taskId : Nat
  machineId : Nat
  duration : Nat
  deadline : Option Int
deriving DecidableEq, Repr

/-- A row after `load_data` has filled missing deadlines
(`jobs_data['Deadline'].fillna(self.horizon).astype(int)`). -/
structure LoadedRow where
  jobId : Nat
  taskId : Nat
  machineId : Nat
  duration : Nat
  deadline : Int
deriving DecidableEq, Repr

/-- The state `load_data` leaves on the scheduler: the filled `jobs_data`,
`self.machines`, `self.jobs` (sorted distinct ids) and `self.horizon`. -/
structure Instance where
  rows : List LoadedRow
  machines : List Nat
  jobs : List Nat
  horizon : Nat
deriving DecidableEq, Repr

/-- Sorted list of the distinct elements of `l`: models
`sorted(self.jobs_data[col].unique())`. -/
def sortedUnique (l : List Nat) : List Nat :=
  l.dedup.insertionSort (· ≤ ·)

/-- The loader (`JobShopScheduler.load_data`): `machines` and `jobs` are the
sorted distinct MachineIDs/JobIDs, `horizon` is the sum of all durations,
and every missing Deadline cell is filled with the horizon. -/
def load_data (input : List Row) : Instance :=
  let horizon := (input.map (·.duration)).sum
  { rows := input.map (fun r =>
      { jobId := r.jobId, taskId := r.taskId, machineId := r.machineId,
        duration := r.duration, deadline := r.deadline.getD horizon })
    machines := sortedUnique (input.map (·.machineId))
    jobs := sortedUnique (input.map (·.jobId))
    horizon := horizon }

/-- The rows of job `j` in dataframe order:
`self.jobs_data[self.jobs_data['JobID'] == job]`. -/
def tasksOfJob (inst : Instance) (j : Nat) : List LoadedRow :=
  inst.rows.filter (fun r => r.jobId = j)

/-- The rows of job `j` sorted by ascending TaskID:
`self.jobs_data[self.jobs_data['JobID'] == job].sort_values('TaskID')`. -/
def jobTasksSorted (inst : Instance) (j : Nat) : List LoadedRow :=
  (tasksOfJob inst j).insertionSort (fun a b => a.taskId ≤ b.taskId)

/-- The deadline used for job `j` in `create_model` and in the extracted
solution: `job_tasks['Deadline'].iloc[0]`, the Deadline of the first row of
the job in dataframe order (0 is a don't-care default for jobs without
rows; `create_model` only queries jobs that have rows). -/
def jobDeadline (inst : Instance) (j : Nat) : Int :=
  (((tasksOfJob inst j).head?).map (·.deadline)).getD 0

/-- A valuation of every variable `create_model` declares: per-task `start`
and `end` variables (keyed by (JobID, TaskID), as `all_tasks` is), the
`makespan` variable, and each job's `job_end` and `job_tardiness`
variables. -/
structure Assignment where
  start : Nat → Nat → Int
  endv : Nat → Nat → Int
  makespan : Int
  jobEnd : Nat → Int
  tardiness : Nat → Int

/-- Semantics of `AddMaxEquality(m, l)`: `m` equals the maximum of the
(nonempty) list `l`. -/
abbrev isMaxOf (m : Int) (l : List Int) : Prop :=
  m ∈ l ∧ ∀ x ∈ l, x ≤ m

/-- Disjointness of the half-open integer intervals `[s1, e1)` and
`[s2, e2)`, in the decidable form used by the no-overlap constraint: either
one interval is empty, or one ends before the other starts. -/
abbrev intervalsDisjoint (s1 e1 s2 e2 : Int) : Prop :=
  e1 ≤ s1 ∨ e2 ≤ s2 ∨ e1 ≤ s2 ∨ e2 ≤ s1

/-- The `(JobID, TaskID)` keys enumerated as in the makespan list of
`create_model` and the extraction loop of `solve`: for each job in
`self.jobs`, the TaskIDs of its rows in dataframe order. -/
def taskKeys (inst : Instance) : List (Nat × Nat) :=
  (inst.jobs.map (fun j => (tasksOfJob inst j).map (fun r => (j, r.taskId)))).flatten

/-- The list of `end` variables over all task keys (the argument of the
makespan `AddMaxEquality`). -/
def endsList (inst : Instance) (a : Assignment) : List Int :=
  (taskKeys inst).map (fun k => a.endv k.1 k.2)

/-- The list of `end` variables of job `j`'s tasks (the argument of the
per-job `AddMaxEquality` for `job_{j}_end`). -/
def jobEndsList (inst : Instance) (a : Assignment) (j : Nat) : List Int :=
  (tasksOfJob inst j).map (fun r => a.endv j r.taskId)

/-- `a` satisfies every constraint posted by `create_model` on `inst`:

1. variable domains `[0, horizon]` and the fixed-duration interval link
   `end = start + duration` for every row;
2. `AddNoOverlap` per machine: intervals of two rows with distinct
   `(JobID, TaskID)` keys on the same machine are disjoint;
3. precedence: each pair of consecutive rows of a job in TaskID order
   (the zip of the sorted list with its tail) satisfies
   `end(cur) ≤ start(next)`;
4. the makespan variable has domain `[0, horizon]` and equals the maximum
   `end` over all task keys;
5. each job's `job_end` and `job_tardiness` variables have domain
   `[0, horizon]`, `job_end` equals the maximum `end` of the job's tasks,
   and `job_tardiness` equals `max(job_end - deadline, 0)`. -/
abbrev Satisfies (inst : Instance) (a : Assignment) : Prop :=
  (∀ r ∈ inst.rows,
      0 ≤ a.start r.jobId r.taskId ∧ a.start r.jobId r.taskId ≤ (inst.horizon : Int) ∧
      0 ≤ a.endv r.jobId r.taskId ∧ a.endv r.jobId r.taskId ≤ (inst.horizon : Int) ∧
      a.endv r.jobId r.taskId = a.start r.jobId r.taskId + (r.duration : Int)) ∧
  (∀ m ∈ inst.machines, ∀ r1 ∈ inst.rows, ∀ r2 ∈ inst.rows,
      r1.machineId = m → r2.machineId = m →
      (r1.jobId, r1.taskId) ≠ (r2.jobId, r2.taskId) →
      intervalsDisjoint (a.start r1.jobId r1.taskId) (a.endv r1.jobId r1.taskId)
        (a.start r2.jobId r2.taskId) (a.endv r2.jobId r2.taskId)) ∧
  (∀ j ∈ inst.jobs,
      ∀ p ∈ (jobTasksSorted inst j).zip (jobTasksSorted inst j).tail,
        a.endv j p.1.taskId ≤ a.start j p.2.taskId) ∧
  (0 ≤ a.makespan ∧ a.makespan ≤ (inst.horizon : Int) ∧
    isMaxOf a.makespan (endsList inst a)) ∧
  (∀ j ∈ inst.jobs,
      0 ≤ a.jobEnd j ∧ a.jobEnd j ≤ (inst.horizon : Int) ∧
      isMaxOf (a.jobEnd j) (jobEndsList inst a j) ∧
      0 ≤ a.tardiness j ∧ a.tardiness j ≤ (inst.horizon : Int) ∧
      isMaxOf (a.tardiness j) [a.jobEnd j - jobDeadline inst j, 0])

/-- The expression `self.model.Minimize(sum(objective_terms))` minimizes:
the makespan variable plus the job tardiness variables, in job order. -/
def objectiveValue (inst : Instance) (a : Assignment) : Int :=
  a.makespan + (inst.jobs.map a.tardiness).sum

/-- Solver termination status (`cp_model` status constants). -/
inductive CpStatus where
  | OPTIMAL
  | FEASIBLE
  | INFEASIBLE
  | MODEL_INVALID
  | UNKNOWN
deriving DecidableEq, Repr

/-- One record of the solution DataFrame built by `solve`. -/
structure ScheduledTask where
  jobId : Nat
  taskId : Nat
  machineId : Nat
  start : Int
  endv : Int
  duration : Nat
  deadline : Int
deriving DecidableEq, Repr

/-- The solution rows `solve` assembles from the solver valuation `a`:
for each job in `self.jobs`, for each of its rows in dataframe order, the
row's machine and duration, the solver values of its `start`/`end`
variables, and the job's (first-row) deadline. -/
def extract_solution (inst : Instance) (a : Assignment) : List ScheduledTask :=
  (inst.jobs.map (fun j =>
    (tasksOfJob inst j).map (fun r =>
      { jobId := j, taskId := r.taskId, machineId := r.machineId,
        start := a.start j r.taskId, endv := a.endv j r.taskId,
        duration := r.duration, deadline := jobDeadline inst j }))).flatten

/-- The solution record a single loaded row contributes (the body of the
extraction loop, written as a function of the row alone; inside the loop
the job variable always equals the row's JobID). -/
def recordOf (inst : Instance) (a : Assignment) (r : LoadedRow) : ScheduledTask :=
  { jobId := r.jobId, taskId := r.taskId, machineId := r.machineId,
    start := a.start r.jobId r.taskId, endv := a.endv r.jobId r.taskId,
    duration := r.duration, deadline := jobDeadline inst r.jobId }

/-- `JobShopScheduler.solve` after the model exists: the external solver's
outcome is its status plus (when it found a solution) a valuation `a` of
all variables. On OPTIMAL or FEASIBLE the schedule is extracted; on any
other status `Exception('No solution found.')` is raised. -/
def solve (inst : Instance) (status : CpStatus) (a : Assignment) :
    Except String (List ScheduledTask) :=
  if status = CpStatus.OPTIMAL ∨ status = CpStatus.FEASIBLE then
    Except.ok (extract_solution inst a)
  else
    Except.error "No solution found."

/-- `JobShopScheduler.get_makespan`: returns `self.solver.ObjectiveValue()`,
the value of the minimized expression at the solver's valuation. -/
def get_makespan (inst : Instance) (a : Assignment) : Int :=
  objectiveValue inst a

/-- Total duration of the rows assigned to machine `m`:
`self.jobs_data.groupby('MachineID')['Duration'].sum()` at key `m`. -/
def machineDuration (inst : Instance) (m : Nat) : Nat :=
  ((inst.rows.filter (fun r => r.machineId = m)).map (·.duration)).sum

/-- `JobShopScheduler.get_initial_machine_utilization`: if the horizon is 0,
every machine maps to 0; otherwise each machine known to the instance (the
groupby keys, sorted) maps to its duration sum divided by the horizon.
Rationals stand in for Python floats; the ratios are exact. -/
def get_initial_machine_utilization (inst : Instance) : List (Nat × ℚ) :=
  if inst.horizon = 0 then
    inst.machines.map (fun m => (m, (0 : ℚ)))
  else
    inst.machines.map (fun m => (m, (machineDuration inst m : ℚ) / (inst.horizon : ℚ)))

/-- Total busy time of machine `m` in a schedule:
`schedule_df.groupby('MachineID').apply(lambda x: (x['End'] - x['Start']).sum())`
at key `m`. -/
def scheduleMachineTime (sched : List ScheduledTask) (m : Nat) : Int :=
  ((sched.filter (fun s => s.machineId = m)).map (fun s => s.endv - s.start)).sum

/-- `JobShopScheduler.get_optimized_machine_utilization`: if the horizon is
0, every machine known to the instance maps to 0; otherwise the groupby
keys are the distinct MachineIDs of the schedule (sorted), each mapping to
its summed `End - Start` divided by the horizon. -/
def get_optimized_machine_utilization (inst : Instance)
    (sched : List ScheduledTask) : List (Nat × ℚ) :=
  if inst.horizon = 0 then
    inst.machines.map (fun m => (m, (0 : ℚ)))
  else
    (sortedUnique (sched.map (·.machineId))).map
      (fun m => (m, (scheduleMachineTime sched m : ℚ) / (inst.horizon : ℚ)))

/-- The scheduler object state that `solve` reads: `self.model` is `none`
until `create_model` has run, after which it holds the encoded instance. -/
structure Scheduler where
  model : Option Instance
deriving DecidableEq

/-- `JobShopScheduler.solve` including its guard: `if not self.model:`
raises `ValueError("Model not created. Call create_model() first.")`
before the solver is ever consulted; otherwise the solver runs and the
solution is extracted. The call returns the result together with the
scheduler state it leaves behind. `oracle` is the external solver's
response (status and valuation), consulted only in the second branch. -/
def Scheduler.solve_run (s : Scheduler) (oracle : CpStatus × Assignment) :
    Except String (List ScheduledTask) × Scheduler :=
  match s.model with
  | none => (Except.error "Model not created. Call create_model() first.", s)
  | some inst => (solve inst oracle.1 oracle.2, s)

/-! Concrete data used to witness the theorems below. -/

/-- A two-job, two-machine input (the spec's Scenario A): Job 1 runs on
machine 1 for 3 then machine 2 for 2; Job 2 runs on machine 2 for 2 then
machine 1 for 4; no deadlines. Horizon is 11. -/
def inputA : List Row :=
  [⟨1, 1, 1, 3, none⟩, ⟨1, 2, 2, 2, none⟩, ⟨2, 1, 2, 2, none⟩, ⟨2, 2, 1, 4, none⟩]

/-- An optimal valuation for `load_data inputA`: Job 1 on machine 1 in
[0,3) then machine 2 in [3,5); Job 2 on machine 2 in [0,2) then machine 1
in [3,7); makespan 7, no tardiness. -/
def aA : Assignment where
  start := fun j t =>
    match j, t with
    | 1, 1 => 0 | 1, 2 => 3 | 2, 1 => 0 | 2, 2 => 3 | _, _ => 0
  endv := fun j t =>
    match j, t with
    | 1, 1 => 3 | 1, 2 => 5 | 2, 1 => 2 | 2, 2 => 7 | _, _ => 0
  makespan := 7
  jobEnd := fun j => match j with | 1 => 5 | 2 => 7 | _ => 0
  tardiness := fun _ => 0

/-- A single task of duration 5 whose job has the explicit deadline 2,
below the minimum achievable completion time (the spec's Scenario D
shape). Horizon is 5. -/
def inputTight : List Row := [⟨1, 1, 1, 5, some 2⟩]

/-- The unique feasible valuation for `load_data inputTight`: the task
occupies [0,5), makespan 5, job end 5, tardiness 3. -/
def aTight : Assignment where
  start := fun _ _ => 0
  endv := fun _ _ => 5
  makespan := 5
  jobEnd := fun _ => 5
  tardiness := fun _ => 3

/-- An all-zero valuation (placeholder solver response). -/
def aZero : Assignment where
  start := fun _ _ => 0
  endv := fun _ _ => 0
  makespan := 0
  jobEnd := fun _ => 0
  tardiness := fun _ => 0

/-! Helper lemmas about the embedding. -/

lemma isMaxOf_pair {m x y : Int} (h : isMaxOf m [x, y]) : m = max x y := by
  obtain ⟨hmem, hub⟩ := h
  have hx := hub x (by simp)
  have hy := hub y (by simp)
  simp only [List.mem_cons, List.mem_singleton, List.not_mem_nil, or_false] at hmem
  rcases hmem with rfl | rfl <;> omega

lemma mem_sortedUnique {l : List Nat} {x : Nat} : x ∈ sortedUnique l ↔ x ∈ l := by
  unfold sortedUnique
  rw [(List.perm_insertionSort _ _).mem_iff, List.mem_dedup]

lemma sortedUnique_nodup (l : List Nat) : (sortedUnique l).Nodup :=
  (List.perm_insertionSort _ _).nodup_iff.mpr (List.nodup_dedup l)

lemma sortedUnique_sorted (l : List Nat) : (sortedUnique l).Sorted (· ≤ ·) :=
  List.sorted_insertionSort _ _

lemma sortedUnique_eq_of_perm {l l' : List Nat} (h : List.Perm l l') :
    sortedUnique l = sortedUnique l' := by
  refine List.eq_of_perm_of_sorted ?_ (sortedUnique_sorted l) (sortedUnique_sorted l')
  exact ((List.perm_insertionSort _ _).trans h.dedup).trans
    (List.perm_insertionSort _ _).symm

lemma load_data_rows_map_jobId (input : List Row) :
    (load_data input).rows.map (·.jobId) = input.map (·.jobId) := by
  simp [load_data]

lemma load_data_rows_map_machineId (input : List Row) :
    (load_data input).rows.map (·.machineId) = input.map (·.machineId) := by
  simp [load_data]

lemma load_data_rows_map_duration (input : List Row) :
    (load_data input).rows.map (·.duration) = input.map (·.duration) := by
  simp [load_data]

lemma jobId_mem_jobs {input : List Row} {r : LoadedRow}
    (hr : r ∈ (load_data input).rows) : r.jobId ∈ (load_data input).jobs := by
  have : r.jobId ∈ (load_data input).rows.map (·.jobId) := List.mem_map_of_mem _ hr
  rw [load_data_rows_map_jobId] at this
  simpa [load_data, mem_sortedUnique] using this

lemma sum_map_filter_le {α : Type} (p : α → Bool) (f : α → Nat) (l : List α) :
    ((l.filter p).map f).sum ≤ (l.map f).sum := by
  have hperm := (List.filter_append_perm p l).map f
  have hsum := hperm.sum_eq
  rw [List.map_append, List.sum_append] at hsum
  omega

lemma machineDuration_le_horizon (input : List Row) (m : Nat) :
    machineDuration (load_data input) m ≤ (load_data input).horizon := by
  unfold machineDuration
  calc (((load_data input).rows.filter (fun r => r.machineId = m)).map (·.duration)).sum
      ≤ ((load_data input).rows.map (·.duration)).sum := sum_map_filter_le _ _ _
    _ = (input.map (·.duration)).sum := by rw [load_data_rows_map_duration]
    _ = (load_data input).horizon := rfl

lemma flatten_filter_perm {α : Type} (key : α → Nat) :
    ∀ (keys : List Nat) (l : List α), keys.Nodup → (∀ x ∈ l, key x ∈ keys) →
      List.Perm ((keys.map (fun j => l.filter (fun x => key x = j))).flatten) l := by
  intro keys
  induction keys with
  | nil =>
    intro l _ hcov
    cases l with
    | nil => simp
    | cons x xs => exact absurd (hcov x (by simp)) (by simp)
  | cons j ks ih =>
    intro l hnd hcov
    have hjks : j ∉ ks := (List.nodup_cons.mp hnd).1
    have hndks : ks.Nodup := (List.nodup_cons.mp hnd).2
    simp only [List.map_cons, List.flatten_cons]
    have hfix : ∀ j' ∈ ks,
        (l.filter (fun x => !(key x = j) : α → Bool)).filter (fun x => key x = j')
          = l.filter (fun x => key x = j') := by
      intro j' hj'
      have hne : j' ≠ j := fun h => hjks (h ▸ hj')
      rw [List.filter_filter]
      refine List.filter_congr ?_
      intro x _
      by_cases hx : key x = j'
      · simp [hx, hne]
      · simp [hx]
    have hmaps : ks.map (fun j' => l.filter (fun x => key x = j'))
        = ks.map (fun j' =>
            (l.filter (fun x => !(key x = j) : α → Bool)).filter (fun x => key x = j')) :=
      (List.map_congr_left (fun j' hj' => (hfix j' hj').symm))
    rw [hmaps]
    have hcov' : ∀ x ∈ l.filter (fun x => !(key x = j) : α → Bool), key x ∈ ks := by
      intro x hx
      rw [List.mem_filter] at hx
      have := hcov x hx.1
      simp only [List.mem_cons] at this
      rcases this with h | h
      · exact absurd (by simpa using hx.2) (by simp [h])
      · exact h
    have hperm := ih (l.filter (fun x => !(key x = j) : α → Bool)) hndks hcov'
    exact (hperm.append_left _).trans (List.filter_append_perm _ l)

lemma tasksOfJob_eq_filter (inst : Instance) (j : Nat) :
    tasksOfJob inst j = inst.rows.filter (fun r => (fun x => x.jobId) r = j) := rfl

lemma rows_flatten_perm (input : List Row) :
    List.Perm
      (((load_data input).jobs.map (fun j => tasksOfJob (load_data input) j)).flatten)
      (load_data input).rows := by
  have hnd : (load_data input).jobs.Nodup := sortedUnique_nodup _
  have hcov : ∀ r ∈ (load_data input).rows, r.jobId ∈ (load_data input).jobs :=
    fun r hr => jobId_mem_jobs hr
  have := flatten_filter_perm (fun r : LoadedRow => r.jobId)
    (load_data input).jobs (load_data input).rows hnd hcov
  simpa [tasksOfJob] using this

lemma extract_solution_eq_map (inst : Instance) (a : Assignment) :
    extract_solution inst a
      = ((inst.jobs.map (fun j => tasksOfJob inst j)).flatten).map (recordOf inst a) := by
  unfold extract_solution
  rw [List.map_flatten, List.map_map]
  congr 1
  refine List.map_congr_left ?_
  intro j _
  simp only [Function.comp]
  refine List.map_congr_left ?_
  intro r hr
  have hj : r.jobId = j := by
    have := List.mem_filter.mp hr
    exact of_decide_eq_true this.2
  simp [recordOf, hj]

lemma extract_solution_perm (input : List Row) (a : Assignment) :
    List.Perm (extract_solution (load_data input) a)
      ((load_data input).rows.map (recordOf (load_data input) a)) := by
  rw [extract_solution_eq_map]
  exact (rows_flatten_perm input).map _

lemma extract_solution_length (input : List Row) (a : Assignment) :
    (extract_solution (load_data input) a).length = input.length := by
  rw [(extract_solution_perm input a).length_eq, List.length_map]
  have := congrArg List.length (load_data_rows_map_jobId input)
  simpa using this

lemma extract_machineId_perm (input : List Row) (a : Assignment) :
    List.Perm ((extract_solution (load_data input) a).map (fun s => s.machineId))
      (input.map (fun r => r.machineId)) := by
  have h := (extract_solution_perm input a).map (fun s : ScheduledTask => s.machineId)
  rw [List.map_map] at h
  have h2 : (load_data input).rows.map
        ((fun s : ScheduledTask => s.machineId) ∘ recordOf (load_data input) a)
      = (load_data input).rows.map (fun r => r.machineId) := rfl
  rw [h2, load_data_rows_map_machineId] at h
  exact h

lemma optimized_keys (input : List Row) (a : Assignment) :
    sortedUnique ((extract_solution (load_data input) a).map (fun s => s.machineId))
      = (load_data input).machines := by
  rw [sortedUnique_eq_of_perm (extract_machineId_perm input a)]
  rfl

lemma scheduleMachineTime_extract (input : List Row) (a : Assignment)
    (hsat : Satisfies (load_data input) a) (m : Nat) :
    scheduleMachineTime (extract_solution (load_data input) a) m
      = (machineDuration (load_data input) m : Int) := by
  unfold scheduleMachineTime
  have hperm := ((extract_solution_perm input a).filter
      (fun s : ScheduledTask => decide (s.machineId = m))).map
      (fun s : ScheduledTask => s.endv - s.start)
  rw [hperm.sum_eq, List.filter_map, List.map_map]
  have hfeq : ((fun s : ScheduledTask => decide (s.machineId = m))
        ∘ recordOf (load_data input) a)
      = (fun r : LoadedRow => decide (r.machineId = m)) := rfl
  rw [hfeq]
  have hcongr : ((load_data input).rows.filter
        (fun r : LoadedRow => decide (r.machineId = m))).map
        ((fun s : ScheduledTask => s.endv - s.start) ∘ recordOf (load_data input) a)
      = ((load_data input).rows.filter
        (fun r : LoadedRow => decide (r.machineId = m))).map
        (fun r => (r.duration : Int)) := by
    refine List.map_congr_left ?_
    intro r hr
    have hrm : r ∈ (load_data input).rows := (List.mem_filter.mp hr).1
    have h1 := hsat.1 r hrm
    show (recordOf (load_data input) a r).endv - (recordOf (load_data input) a r).start = _
    unfold recordOf
    dsimp only
    omega
  rw [hcongr]
  unfold machineDuration
  rw [Nat.cast_list_sum, List.map_map]
  rfl

/-! The claims. -/

/-- C2. For every problem instance and every variable assignment satisfying
the encoded model, and for every machine, no two tasks assigned to that
machine have intersecting [start, end) intervals: no integer time point
lies in both intervals. -/
theorem machine_no_overlap (inst : Instance) (a : Assignment) (h : Satisfies inst a)
    (m : Nat) (hm : m ∈ inst.machines) (r1 : LoadedRow) (h1 : r1 ∈ inst.rows)
    (r2 : LoadedRow) (h2 : r2 ∈ inst.rows) (hm1 : r1.machineId = m)
    (hm2 : r2.machineId = m) (hne : (r1.jobId, r1.taskId) ≠ (r2.jobId, r2.taskId))
    (t : Int) :
    ¬ (a.start r1.jobId r1.taskId ≤ t ∧ t < a.endv r1.jobId r1.taskId ∧
       a.start r2.jobId r2.taskId ≤ t ∧ t < a.endv r2.jobId r2.taskId) := by
  have hd := h.2.1 m hm r1 h1 r2 h2 hm1 hm2 hne
  unfold intervalsDisjoint at hd
  omega

/-- Witness for C2: in the optimal Scenario-A solution, the two machine-1
tasks (Job 1 Task 1 in [0,3) and Job 2 Task 2 in [3,7)) do not both
contain time 3. -/
theorem machine_no_overlap_witness :
    Satisfies (load_data inputA) aA ∧
    ¬ (aA.start 1 1 ≤ 3 ∧ 3 < aA.endv 1 1 ∧ aA.start 2 2 ≤ 3 ∧ 3 < aA.endv 2 2) :=
  ⟨by decide,
    machine_no_overlap (load_data inputA) aA (by decide) 1 (by decide)
      ⟨1, 1, 1, 3, 11⟩ (by decide) ⟨2, 2, 1, 4, 11⟩ (by decide) rfl rfl (by decide) 3⟩

/-- C4. For every instance, every job and every pair of consecutive tasks
of that job in ascending TaskID order, every satisfying assignment of the
encoded model has end(t_i) ≤ start(t_{i+1}). -/
theorem job_precedence (inst : Instance) (a : Assignment) (h : Satisfies inst a)
    (j : Nat) (hj : j ∈ inst.jobs) (i : Nat)
    (hi : i + 1 < (jobTasksSorted inst j).length) :
    a.endv j ((jobTasksSorted inst j).get ⟨i, Nat.lt_of_succ_lt hi⟩).taskId ≤
    a.start j ((jobTasksSorted inst j).get ⟨i + 1, hi⟩).taskId := by
  have hzip := h.2.2.1 j hj
  have hlen : i < ((jobTasksSorted inst j).zip (jobTasksSorted inst j).tail).length := by
    rw [List.length_zip, List.length_tail]
    omega
  have hkey : ((jobTasksSorted inst j).zip (jobTasksSorted inst j).tail).get ⟨i, hlen⟩
      = ((jobTasksSorted inst j).get ⟨i, Nat.lt_of_succ_lt hi⟩,
         (jobTasksSorted inst j).get ⟨i + 1, hi⟩) := by
    simp only [List.get_eq_getElem]
    rw [List.getElem_zip]
    congr 1
    rw [List.getElem_tail]
  have hmem : ((jobTasksSorted inst j).zip (jobTasksSorted inst j).tail).get ⟨i, hlen⟩
      ∈ (jobTasksSorted inst j).zip (jobTasksSorted inst j).tail := by
    simp only [List.get_eq_getElem]
    exact List.getElem_mem hlen
  have := hzip _ hmem
  rw [hkey] at this
  exact this

/-- Witness for C4: in the Scenario-A solution, Job 1's first task (TaskID
1, ending at 3) finishes no later than its second task (TaskID 2, starting
at 3) begins. -/
theorem job_precedence_witness :
    Satisfies (load_data inputA) aA ∧ aA.endv 1 1 ≤ aA.start 1 2 :=
  ⟨by decide, by
    have h := job_precedence (load_data inputA) aA (by decide) 1 (by decide) 0 (by decide)
    exact h⟩

/-- C5. For every loaded instance and every task, every satisfying
assignment has 0 ≤ start, start ≤ horizon, 0 ≤ end, end ≤ horizon and
end − start = duration, where the horizon is the sum of all durations. -/
theorem task_bounds (input : List Row) (a : Assignment)
    (h : Satisfies (load_data input) a) :
    (load_data input).horizon = (input.map (·.duration)).sum ∧
    ∀ r ∈ (load_data input).rows,
      0 ≤ a.start r.jobId r.taskId ∧
      0 ≤ a.endv r.jobId r.taskId ∧
      a.start r.jobId r.taskId ≤ ((load_data input).horizon : Int) ∧
      a.endv r.jobId r.taskId ≤ ((load_data input).horizon : Int) ∧
      a.endv r.jobId r.taskId - a.start r.jobId r.taskId = (r.duration : Int) := by
  refine ⟨rfl, fun r hr => ?_⟩
  have := h.1 r hr
  omega

/-- Witness for C5: Scenario A satisfies the bounds theorem's hypothesis
and its horizon is the total duration 11. -/
theorem task_bounds_witness :
    Satisfies (load_data inputA) aA ∧
    (load_data inputA).horizon = (inputA.map (·.duration)).sum :=
  ⟨by decide, (task_bounds inputA aA (by decide)).1⟩

/-- C6 (counterexample). Loading an empty record stream does not fail:
`load_data` returns a full problem instance (with no rows, no machines,
no jobs, and horizon 0), so no `EmptyInstanceError` is reported. -/
theorem load_data_empty_produces_instance :
    load_data [] = { rows := [], machines := [], jobs := [], horizon := 0 } := rfl

/-- C6 (amended). Loading an empty record stream (zero task rows) succeeds
and produces the instance with no rows, no machines, no jobs, and
horizon 0. -/
theorem load_data_empty_fields :
    (load_data []).rows = [] ∧ (load_data []).machines = [] ∧
    (load_data []).jobs = [] ∧ (load_data []).horizon = 0 :=
  ⟨rfl, rfl, rfl, rfl⟩

/-- C7. `solve` raises the no-solution error exactly when the solver status
is neither OPTIMAL nor FEASIBLE; otherwise it returns the extracted
schedule, which has one record per input task row. -/
theorem solve_status_dichotomy (input : List Row) (status : CpStatus) (a : Assignment) :
    (status = CpStatus.OPTIMAL ∨ status = CpStatus.FEASIBLE →
      solve (load_data input) status a
        = Except.ok (extract_solution (load_data input) a) ∧
      (extract_solution (load_data input) a).length = input.length) ∧
    (¬ (status = CpStatus.OPTIMAL ∨ status = CpStatus.FEASIBLE) →
      solve (load_data input) status a = Except.error ("No solution found.")) := by
  constructor
  · intro hst
    constructor
    · unfold solve
      rw [if_pos hst]
    · exact extract_solution_length input a
  · intro hst
    unfold solve
    rw [if_neg hst]

/-- Witness for C7: on Scenario A, status OPTIMAL yields the extracted
4-record schedule and status INFEASIBLE yields the no-solution error. -/
theorem solve_status_dichotomy_witness :
    solve (load_data inputA) CpStatus.OPTIMAL aA
      = Except.ok (extract_solution (load_data inputA) aA) ∧
    (extract_solution (load_data inputA) aA).length = inputA.length ∧
    solve (load_data inputA) CpStatus.INFEASIBLE aA
      = Except.error ("No solution found.") :=
  ⟨((solve_status_dichotomy inputA CpStatus.OPTIMAL aA).1 (Or.inl rfl)).1,
   ((solve_status_dichotomy inputA CpStatus.OPTIMAL aA).1 (Or.inl rfl)).2,
   (solve_status_dichotomy inputA CpStatus.INFEASIBLE aA).2 (by decide)⟩

/-- C10. Calling solve before create_model (the model field is still none)
returns the ValueError message, leaves the scheduler state unchanged, and
never consults the solver: the outcome is the same for every solver
response. -/
theorem solve_without_model (s : Scheduler) (oracle : CpStatus × Assignment)
    (h : s.model = none) :
    Scheduler.solve_run s oracle
      = (Except.error ("Model not created. Call create_model() first."), s) ∧
    ∀ oracle2 : CpStatus × Assignment,
      Scheduler.solve_run s oracle = Scheduler.solve_run s oracle2 := by
  constructor
  · simp [Scheduler.solve_run, h]
  · intro o2
    simp [Scheduler.solve_run, h]

/-- C1. For every instance, the objective minimized by the encoded model
equals the makespan variable plus the sum over all jobs of that job's
tardiness with weight 1, where in every satisfying assignment the makespan
variable is the maximum end over all tasks, each job-end variable is the
maximum end over the job's tasks, and each tardiness variable equals
max(jobEnd − deadline, 0). -/
theorem objective_is_makespan_plus_tardiness (inst : Instance) (a : Assignment)
    (h : Satisfies inst a) :
    objectiveValue inst a
      = a.makespan
        + (inst.jobs.map (fun j => max (a.jobEnd j - jobDeadline inst j) 0)).sum ∧
    isMaxOf a.makespan (endsList inst a) ∧
    ∀ j ∈ inst.jobs, isMaxOf (a.jobEnd j) (jobEndsList inst a j) := by
  obtain ⟨-, -, -, hmk, hjob⟩ := h
  refine ⟨?_, hmk.2.2, fun j hj => (hjob j hj).2.2.1⟩
  unfold objectiveValue
  have hmapeq : inst.jobs.map a.tardiness
      = inst.jobs.map (fun j => max (a.jobEnd j - jobDeadline inst j) 0) :=
    List.map_congr_left (fun j hj => isMaxOf_pair (hjob j hj).2.2.2.2.2)
  rw [hmapeq]

/-- Witness for C1: on Scenario A the objective value 7 decomposes as
makespan 7 plus total tardiness 0. -/
theorem objective_is_makespan_plus_tardiness_witness :
    Satisfies (load_data inputA) aA ∧
    objectiveValue (load_data inputA) aA
      = aA.makespan
        + ((load_data inputA).jobs.map
            (fun j => max (aA.jobEnd j - jobDeadline (load_data inputA) j) 0)).sum :=
  ⟨by decide, (objective_is_makespan_plus_tardiness (load_data inputA) aA (by decide)).1⟩

/-- C3 (refuting the claim on the code). On the single-task instance with
duration 5 and explicit deadline 2, every satisfying assignment gives
`get_makespan` (which returns the solver objective) the value 8, while the
list of task end times is [5], whose maximum is 5: the returned scalar is
the objective makespan + tardiness, not the last completion time. -/
theorem get_makespan_is_objective_not_last_end (a : Assignment)
    (h : Satisfies (load_data inputTight) a) :
    get_makespan (load_data inputTight) a = 8 ∧
    endsList (load_data inputTight) a = [5] := by
  have hrow := h.1 ⟨1, 1, 1, 5, 2⟩ (by decide)
  dsimp only at hrow
  have hH : ((load_data inputTight).horizon : Int) = 5 := by decide
  rw [hH] at hrow
  obtain ⟨hs0, hsH, he0, heH, hes⟩ := hrow
  have hend : a.endv 1 1 = 5 := by omega
  have hmk := h.2.2.2.1
  rw [hH] at hmk
  have hel : endsList (load_data inputTight) a = [a.endv 1 1] := rfl
  rw [hel] at hmk
  obtain ⟨-, -, hmkmem, -⟩ := hmk
  rw [List.mem_singleton] at hmkmem
  have hjob := h.2.2.2.2 1 (by decide)
  have hjel : jobEndsList (load_data inputTight) a 1 = [a.endv 1 1] := rfl
  rw [hjel] at hjob
  obtain ⟨-, -, ⟨hjmem, -⟩, htd0, -, htd⟩ := hjob
  rw [List.mem_singleton] at hjmem
  have hjd : jobDeadline (load_data inputTight) 1 = 2 := by decide
  have htdpair := isMaxOf_pair htd
  rw [hjd, hjmem, hend] at htdpair
  have htval : a.tardiness 1 = 3 := by
    rw [htdpair]
    decide
  constructor
  · show objectiveValue (load_data inputTight) a = 8
    have hjobs : (load_data inputTight).jobs = [1] := by decide
    unfold objectiveValue
    rw [hjobs]
    simp only [List.map_cons, List.map_nil, List.sum_cons, List.sum_nil]
    rw [htval, hmkmem, hend]
    decide
  · rw [hel, hend]

/-- Witness for C3: the valuation `aTight` satisfies the tight instance's
model, so the refutation theorem applies to it: `get_makespan` is 8 while
all ends are 5. -/
theorem get_makespan_is_objective_not_last_end_witness :
    Satisfies (load_data inputTight) aTight ∧
    get_makespan (load_data inputTight) aTight = 8 ∧
    endsList (load_data inputTight) aTight = [5] :=
  ⟨by decide,
   (get_makespan_is_objective_not_last_end aTight (by decide)).1,
   (get_makespan_is_objective_not_last_end aTight (by decide)).2⟩

/-- C8. Every row whose Deadline is absent is loaded with deadline equal to
the horizon, and for any job whose (first-row) deadline was so defaulted,
the tardiness variable is 0 in every satisfying assignment of the encoded
model. -/
theorem deadline_defaults_to_horizon_zero_tardiness
    (input : List Row) (j : Nat) (a : Assignment)
    (hsat : Satisfies (load_data input) a)
    (r0 : Row) (hhead : (input.filter (fun r => r.jobId = j)).head? = some r0)
    (hnone : r0.deadline = none) :
    (∀ (i : Nat) (r : Row), input[i]? = some r → r.deadline = none →
      (load_data input).rows[i]? = some
        { jobId := r.jobId, taskId := r.taskId, machineId := r.machineId,
          duration := r.duration, deadline := ((load_data input).horizon : Int) }) ∧
    jobDeadline (load_data input) j = ((load_data input).horizon : Int) ∧
    a.tardiness j = 0 := by
  have hfill : ∀ i : Nat, ∀ r : Row, input[i]? = some r → r.deadline = none →
      (load_data input).rows[i]? = some
        { jobId := r.jobId, taskId := r.taskId, machineId := r.machineId,
          duration := r.duration, deadline := ((load_data input).horizon : Int) } := by
    intro i r hi hdn
    show (input.map _)[i]? = _
    rw [List.getElem?_map, hi, Option.map_some']
    rw [hdn]
    rfl
  have hTOJ : tasksOfJob (load_data input) j
      = (input.filter (fun r => r.jobId = j)).map (fun r =>
          ({ jobId := r.jobId, taskId := r.taskId, machineId := r.machineId,
             duration := r.duration,
             deadline := r.deadline.getD (load_data input).horizon } : LoadedRow)) := by
    show (input.map _).filter _ = _
    rw [List.filter_map]
    congr 1
  have hjd : jobDeadline (load_data input) j = ((load_data input).horizon : Int) := by
    unfold jobDeadline
    rw [hTOJ, List.head?_map, hhead]
    simp [hnone]
  refine ⟨hfill, hjd, ?_⟩
  have hr0mem : r0 ∈ input.filter (fun r => r.jobId = j) :=
    List.mem_of_mem_head? (Option.mem_def.mpr hhead)
  have hjmem : j ∈ (load_data input).jobs := by
    have h1 := List.mem_filter.mp hr0mem
    have h2 : r0.jobId = j := of_decide_eq_true h1.2
    have : j ∈ input.map (·.jobId) := h2 ▸ List.mem_map_of_mem _ h1.1
    simpa [load_data, mem_sortedUnique] using this
  have hjob := hsat.2.2.2.2 j hjmem
  obtain ⟨-, hjEH, -, htd0, -, htd⟩ := hjob
  obtain ⟨htmem, -⟩ := htd
  rw [hjd] at htmem
  simp only [List.mem_cons, List.mem_singleton, List.not_mem_nil, or_false] at htmem
  rcases htmem with heq | heq <;> omega

/-- Witness for C8: in Scenario A every Deadline cell is absent; Job 1's
deadline is filled with the horizon 11 and its tardiness is 0 in the
optimal valuation. -/
theorem deadline_defaults_to_horizon_zero_tardiness_witness :
    Satisfies (load_data inputA) aA ∧
    jobDeadline (load_data inputA) 1 = ((load_data inputA).horizon : Int) ∧
    aA.tardiness 1 = 0 :=
  ⟨by decide,
   (deadline_defaults_to_horizon_zero_tardiness inputA 1 aA (by decide)
      ⟨1, 1, 1, 3, none⟩ (by decide) rfl).2.1,
   (deadline_defaults_to_horizon_zero_tardiness inputA 1 aA (by decide)
      ⟨1, 1, 1, 3, none⟩ (by decide) rfl).2.2⟩

/-- Witness for C10: a fresh scheduler (model not created) answers the
ValueError message for an INFEASIBLE solver response and identically for
an OPTIMAL one. -/
theorem solve_without_model_witness :
    Scheduler.solve_run ⟨none⟩ (CpStatus.INFEASIBLE, aZero)
      = (Except.error ("Model not created. Call create_model() first."), ⟨none⟩) ∧
    Scheduler.solve_run ⟨none⟩ (CpStatus.INFEASIBLE, aZero)
      = Scheduler.solve_run ⟨none⟩ (CpStatus.OPTIMAL, aA) :=
  ⟨(solve_without_model ⟨none⟩ (CpStatus.INFEASIBLE, aZero) rfl).1,
   (solve_without_model ⟨none⟩ (CpStatus.INFEASIBLE, aZero) rfl).2
     (CpStatus.OPTIMAL, aA)⟩

/-- C9. For every loaded instance (with a feasible solved schedule for the
optimized map), both utilization functions return a map whose keys are
exactly the instance's machines (each exactly once, the machine list being
duplicate-free), every entry lies in [0, 1], and if the horizon is 0 every
entry is exactly 0. -/
theorem utilization_well_formedness (input : List Row) (a : Assignment)
    (hsat : Satisfies (load_data input) a) :
    ((get_initial_machine_utilization (load_data input)).map Prod.fst
        = (load_data input).machines) ∧
    (load_data input).machines.Nodup ∧
    (∀ p ∈ get_initial_machine_utilization (load_data input), 0 ≤ p.2 ∧ p.2 ≤ 1) ∧
    ((load_data input).horizon = 0 →
      ∀ p ∈ get_initial_machine_utilization (load_data input), p.2 = 0) ∧
    ((get_optimized_machine_utilization (load_data input)
        (extract_solution (load_data input) a)).map Prod.fst
        = (load_data input).machines) ∧
    (∀ p ∈ get_optimized_machine_utilization (load_data input)
        (extract_solution (load_data input) a), 0 ≤ p.2 ∧ p.2 ≤ 1) ∧
    ((load_data input).horizon = 0 →
      ∀ p ∈ get_optimized_machine_utilization (load_data input)
        (extract_solution (load_data input) a), p.2 = 0) := by
  have hmnodup : (load_data input).machines.Nodup := sortedUnique_nodup _
  by_cases hz : (load_data input).horizon = 0
  · refine ⟨?_, hmnodup, ?_, ?_, ?_, ?_, ?_⟩
    · unfold get_initial_machine_utilization
      rw [if_pos hz, List.map_map]
      exact List.map_id _
    · intro p hp
      unfold get_initial_machine_utilization at hp
      rw [if_pos hz] at hp
      obtain ⟨m, hm, rfl⟩ := List.mem_map.mp hp
      norm_num
    · intro h0 p hp
      unfold get_initial_machine_utilization at hp
      rw [if_pos hz] at hp
      obtain ⟨m, hm, rfl⟩ := List.mem_map.mp hp
      rfl
    · unfold get_optimized_machine_utilization
      rw [if_pos hz, List.map_map]
      exact List.map_id _
    · intro p hp
      unfold get_optimized_machine_utilization at hp
      rw [if_pos hz] at hp
      obtain ⟨m, hm, rfl⟩ := List.mem_map.mp hp
      norm_num
    · intro h0 p hp
      unfold get_optimized_machine_utilization at hp
      rw [if_pos hz] at hp
      obtain ⟨m, hm, rfl⟩ := List.mem_map.mp hp
      rfl
  · have hpos : (0 : ℚ) < ((load_data input).horizon : ℚ) := by
      exact_mod_cast Nat.pos_of_ne_zero hz
    refine ⟨?_, hmnodup, ?_, ?_, ?_, ?_, ?_⟩
    · unfold get_initial_machine_utilization
      rw [if_neg hz, List.map_map]
      exact List.map_id _
    · intro p hp
      unfold get_initial_machine_utilization at hp
      rw [if_neg hz] at hp
      obtain ⟨m, hm, rfl⟩ := List.mem_map.mp hp
      refine ⟨div_nonneg (by positivity) (le_of_lt hpos), ?_⟩
      rw [div_le_one hpos]
      exact_mod_cast machineDuration_le_horizon input m
    · intro h0
      exact absurd h0 hz
    · unfold get_optimized_machine_utilization
      rw [if_neg hz, List.map_map, optimized_keys input a]
      exact List.map_id _
    · intro p hp
      unfold get_optimized_machine_utilization at hp
      rw [if_neg hz] at hp
      obtain ⟨m, hm, rfl⟩ := List.mem_map.mp hp
      have hval : ((scheduleMachineTime (extract_solution (load_data input) a) m : ℚ))
          = ((machineDuration (load_data input) m : ℚ)) := by
        rw [scheduleMachineTime_extract input a hsat m]
        exact Int.cast_natCast _
      dsimp only
      rw [hval]
      refine ⟨div_nonneg (by positivity) (le_of_lt hpos), ?_⟩
      rw [div_le_one hpos]
      exact_mod_cast machineDuration_le_horizon input m
    · intro h0
      exact absurd h0 hz

/-- Witness for C9: on Scenario A, both utilization maps are keyed exactly
by the machine list [1, 2]. -/
theorem utilization_well_formedness_witness :
    Satisfies (load_data inputA) aA ∧
    (get_initial_machine_utilization (load_data inputA)).map Prod.fst
      = (load_data inputA).machines ∧
    (get_optimized_machine_utilization (load_data inputA)
        (extract_solution (load_data inputA) aA)).map Prod.fst
      = (load_data inputA).machines :=
  ⟨by decide,
   (utilization_well_formedness inputA aA (by decide)).1,
   (utilization_well_formedness inputA aA (by decide)).2.2.2.2.1⟩

end SmartScheduling
